import Mathlib

/-!
Verification of the block-store repository (src/src/block_store.c) against its
natural-language specification.

The block store is an array of BLOCK_COUNT pointers; slots 0 .. BLOCK_COUNT-2
each point to a BLOCK_SIZE-byte buffer, and slot BLOCK_COUNT-1 holds the
pointer to the occupancy bitmap.  We model that layout directly: a structure
with a list of user-block buffers and the bitmap.  size_t values are Nat,
with arithmetic reduced mod 2^64 exactly where the C expression can wrap.

The bitmap implementation (bitmap.c / bitmap.h) is not part of the source
tree; its operations are modelled from the specification's Bitmap contract
(spec section 4.1).
-/

set_option maxRecDepth 8192

/-- BLOCK_SIZE from block_store.c: bytes per block. -/
def BLOCK_SIZE : Nat := 256

/-- BLOCK_COUNT from block_store.c: number of slots, one reserved for the bitmap. -/
def BLOCK_COUNT : Nat := 256

/-- Width of size_t (64-bit platform): values wrap mod this. -/
def two64 : Nat := 2 ^ 64

/-- SIZE_MAX, the sentinel returned by allocate and the count getters. -/
def SIZE_MAX : Nat := 2 ^ 64 - 1

/-- size_t subtraction: a - b computed with wraparound mod 2^64. -/
def sizeSub (a b : Nat) : Nat := (a + (two64 - b % two64)) % two64

/-- A block's byte content: a list of byte values. -/
def Buffer : Type := List Nat

instance : DecidableEq Buffer := by
  unfold Buffer
  infer_instance

/-- Modelled from the spec: bitmap.c is not under src/.  A Bitmap is a dense
bit-vector of fixed length (spec section 4.1); `bit_count` is the length of
the bit list. -/
structure bitmap where
  bits : List Bool
deriving DecidableEq

/-- Modelled from the spec: `create(bit_count)` gives a bitmap with all bits
clear. -/
def bitmap_create (bit_count : Nat) : bitmap :=
  { bits := List.replicate bit_count false }

/-- Modelled from the spec: `set(bit_index)` marks the bit set; an index
`>= bit_count` is rejected without touching memory (List.set is a no-op out
of range). -/
def bitmap_set (bm : bitmap) (bit_index : Nat) : bitmap :=
  { bits := bm.bits.set bit_index true }

/-- Modelled from the spec: `reset(bit_index)` marks the bit clear; same
bounds contract as `set`. -/
def bitmap_reset (bm : bitmap) (bit_index : Nat) : bitmap :=
  { bits := bm.bits.set bit_index false }

/-- Modelled from the spec: `test(bit_index)` is true iff the bit is set; an
out-of-range index returns the sentinel false. -/
def bitmap_test (bm : bitmap) (bit_index : Nat) : Bool :=
  bm.bits.getD bit_index false

/-- Index of the first clear bit of a bit list, scanning from index 0. -/
def firstClear : List Bool → Option Nat
  | [] => none
  | false :: _ => some 0
  | true :: rest => (firstClear rest).map (· + 1)

/-- Modelled from the spec: `ffz()` returns the index of the first clear bit
scanning from index 0, or the not-found sentinel SIZE_MAX if every bit is
set. -/
def bitmap_ffz (bm : bitmap) : Nat :=
  match firstClear bm.bits with
  | some i => i
  | none => SIZE_MAX

/-- Modelled from the spec: `total_set()` counts the set bits. -/
def bitmap_total_set (bm : bitmap) : Nat :=
  bm.bits.count true

/-- block_store_t from block_store.c: slots 0 .. BLOCK_COUNT-2 are the user
blocks, slot BLOCK_COUNT-1 holds the bitmap.  `blocks` lists the user-block
buffers in slot order. -/
structure block_store where
  blocks : List Buffer
  bm : bitmap
deriving DecidableEq

/-- block_store_create: allocates the BLOCK_COUNT-1 user blocks (their bytes
are malloc'd uninitialized in the source, modelled by the parameter `init`
giving each slot's resident bytes), creates the bitmap in the last slot and
sets its bit BLOCK_COUNT-1. -/
def block_store_create (init : Nat → Buffer) : block_store :=
  { blocks := (List.range (BLOCK_COUNT - 1)).map init
    bm := bitmap_set (bitmap_create BLOCK_COUNT) (BLOCK_COUNT - 1) }

/-- block_store_allocate: NULL gives SIZE_MAX; otherwise bitmap_ffz finds the
first clear bit; SIZE_MAX means no free block, else the bit is set and its
index returned. -/
def block_store_allocate : Option block_store → Option block_store × Nat
  | none => (none, SIZE_MAX)
  | some bs =>
    let block := bitmap_ffz bs.bm
    if block = SIZE_MAX then
      (some bs, SIZE_MAX)
    else
      (some { bs with bm := bitmap_set bs.bm block }, block)

/-- block_store_request: fails on NULL or block_id > BLOCK_COUNT - 1; tests
the bit, and if clear sets it and succeeds, otherwise fails. -/
def block_store_request : Option block_store → Nat → Option block_store × Bool
  | none, _ => (none, false)
  | some bs, block_id =>
    if block_id > BLOCK_COUNT - 1 then
      (some bs, false)
    else if bitmap_test bs.bm block_id = false then
      (some { bs with bm := bitmap_set bs.bm block_id }, true)
    else
      (some bs, false)

/-- block_store_release: NULL is a no-op; otherwise resets the bit
unconditionally.  Note: the source has no bounds check on block_id here. -/
def block_store_release : Option block_store → Nat → Option block_store
  | none, _ => none
  | some bs, block_id => some { bs with bm := bitmap_reset bs.bm block_id }

/-- block_store_get_used_blocks: NULL gives SIZE_MAX; otherwise
bitmap_total_set minus 1 in size_t arithmetic (the reserved bit is assumed
set; if it is not, the subtraction wraps). -/
def block_store_get_used_blocks : Option block_store → Nat
  | none => SIZE_MAX
  | some bs => sizeSub (bitmap_total_set bs.bm) 1

/-- block_store_get_free_blocks: NULL gives SIZE_MAX; otherwise BLOCK_COUNT
minus bitmap_total_set in size_t arithmetic. -/
def block_store_get_free_blocks : Option block_store → Nat
  | none => SIZE_MAX
  | some bs => sizeSub BLOCK_COUNT (bitmap_total_set bs.bm)

/-- block_store_get_total_blocks: the constant BLOCK_COUNT - 1. -/
def block_store_get_total_blocks : Nat := BLOCK_COUNT - 1

/-- block_store_read: result is (store after the call, caller buffer content
after the call, bytes copied).  Caller buffers are modelled as exactly
BLOCK_SIZE bytes.  NULL store or buffer, or block_id > BLOCK_COUNT - 1,
return 0 and touch nothing.  block_id = BLOCK_COUNT - 1 passes the source's
bounds check: the memcpy then reads 256 bytes from the bitmap allocation
(an out-of-bounds read), so the bytes landing in the buffer are
indeterminate, modelled as `none`; the call still returns BLOCK_SIZE. -/
def block_store_read : Option block_store → Nat → Option Buffer → Option block_store × Option Buffer × Nat
  | none, _, buffer => (none, buffer, 0)
  | some bs, _, none => (some bs, none, 0)
  | some bs, block_id, some b =>
    if block_id > BLOCK_COUNT - 1 then
      (some bs, some b, 0)
    else if block_id < BLOCK_COUNT - 1 then
      (some bs, some (bs.blocks.getD block_id []), BLOCK_SIZE)
    else
      (some bs, none, BLOCK_SIZE)

/-- block_store_write: result is (store after the call, bytes copied).  NULL
store or buffer, or block_id > BLOCK_COUNT - 1, return 0 and touch nothing.
block_id = BLOCK_COUNT - 1 passes the source's bounds check: the memcpy then
writes 256 bytes over the bitmap allocation (a heap overflow), leaving the
store in an indeterminate state, modelled as `none`; the call still returns
BLOCK_SIZE. -/
def block_store_write : Option block_store → Nat → Option Buffer → Option block_store × Nat
  | none, _, _ => (none, 0)
  | some bs, _, none => (some bs, 0)
  | some bs, block_id, some b =>
    if block_id > BLOCK_COUNT - 1 then
      (some bs, 0)
    else if block_id < BLOCK_COUNT - 1 then
      (some { bs with blocks := bs.blocks.set block_id (b.take BLOCK_SIZE) }, BLOCK_SIZE)
    else
      (none, BLOCK_SIZE)

/-! ## Helper lemmas about lists and the bitmap model -/

/-- Setting position i and reading it back with getD gives the written value,
provided i is in range. -/
theorem getD_set_self {α : Type} (d b : α) :
    ∀ (l : List α) (i : Nat), i < l.length → (l.set i b).getD i d = b
  | _ :: _, 0, _ => rfl
  | _ :: l, i + 1, h => getD_set_self d b l i (Nat.lt_of_succ_lt_succ h)

/-- Setting position i leaves getD at any other position unchanged. -/
theorem getD_set_ne {α : Type} (d b : α) :
    ∀ (l : List α) (i j : Nat), i ≠ j → (l.set i b).getD j d = l.getD j d
  | [], _, _, _ => rfl
  | _ :: _, 0, 0, h => absurd rfl h
  | _ :: _, 0, _ + 1, _ => rfl
  | _ :: _, _ + 1, 0, _ => rfl
  | _ :: l, i + 1, j + 1, h =>
    getD_set_ne d b l i j (fun he => h (congrArg Nat.succ he))

/-- getD on a replicated list gives the replicated element in range. -/
theorem getD_replicate {α : Type} (d a : α) :
    ∀ (n i : Nat), i < n → (List.replicate n a).getD i d = a
  | _ + 1, 0, _ => rfl
  | n + 1, i + 1, h => getD_replicate d a n i (Nat.lt_of_succ_lt_succ h)

/-- getD out of range gives the default. -/
theorem getD_oob {α : Type} (d : α) :
    ∀ (l : List α) (i : Nat), l.length ≤ i → l.getD i d = d
  | [], 0, _ => rfl
  | [], _ + 1, _ => rfl
  | _ :: l, i + 1, h => getD_oob d l i (Nat.le_of_succ_le_succ h)

/-- A position holding a non-default value is in range. -/
theorem lt_length_of_getD_true (l : List Bool) (i : Nat)
    (h : l.getD i false = true) : i < l.length := by
  by_contra hge
  rw [getD_oob false l i (Nat.le_of_not_lt hge)] at h
  exact Bool.false_ne_true h

/-- Clearing a position always leaves getD there false (out of range the
default false is read). -/
theorem getD_set_false :
    ∀ (l : List Bool) (i : Nat), (l.set i false).getD i false = false
  | [], 0 => rfl
  | [], _ + 1 => rfl
  | _ :: _, 0 => rfl
  | _ :: l, i + 1 => getD_set_false l i

/-- Setting the same position twice keeps only the second write. -/
theorem set_set_same {α : Type} (a b : α) :
    ∀ (l : List α) (i : Nat), (l.set i a).set i b = l.set i b
  | [], _ => rfl
  | _ :: _, 0 => rfl
  | x :: l, i + 1 => congrArg (x :: ·) (set_set_same a b l i)

/-- If firstClear finds nothing, every bit in range reads true. -/
theorem firstClear_none_all_true :
    ∀ l : List Bool, firstClear l = none →
      ∀ i, i < l.length → l.getD i false = true := by
  intro l
  induction l with
  | nil => intro _ i h; exact absurd h (Nat.not_lt_zero i)
  | cons a rest ih =>
    intro h i hi
    cases a with
    | false => simp [firstClear] at h
    | true =>
      have hrest : firstClear rest = none := by
        cases hfc : firstClear rest with
        | none => rfl
        | some j => rw [firstClear, hfc] at h; simp at h
      cases i with
      | zero => rfl
      | succ i => exact ih hrest i (Nat.lt_of_succ_lt_succ hi)

/-- If every bit in range reads true, firstClear finds nothing. -/
theorem firstClear_eq_none_of_all_true :
    ∀ l : List Bool, (∀ i, i < l.length → l.getD i false = true) →
      firstClear l = none := by
  intro l
  induction l with
  | nil => intro _; rfl
  | cons a rest ih =>
    intro h
    have ha : a = true := h 0 (Nat.succ_pos _)
    subst ha
    have hrest : firstClear rest = none :=
      ih (fun i hi => h (i + 1) (Nat.succ_lt_succ hi))
    rw [firstClear, hrest]
    rfl

/-- When firstClear finds index j, that index is in range, reads false, and
every earlier index reads true. -/
theorem firstClear_some_spec :
    ∀ (l : List Bool) (j : Nat), firstClear l = some j →
      j < l.length ∧ l.getD j false = false ∧
        ∀ k, k < j → l.getD k false = true := by
  intro l
  induction l with
  | nil => intro j h; simp [firstClear] at h
  | cons a rest ih =>
    intro j h
    cases a with
    | false =>
      have hj : j = 0 := by
        rw [firstClear] at h
        exact (Option.some_inj.mp h).symm
      subst hj
      exact ⟨Nat.succ_pos _, rfl, fun k hk => absurd hk (Nat.not_lt_zero k)⟩
    | true =>
      rw [firstClear] at h
      cases hfc : firstClear rest with
      | none => rw [hfc] at h; simp at h
      | some j' =>
        rw [hfc] at h
        simp at h
        obtain ⟨hjl, hjf, hjm⟩ := ih j' hfc
        refine ⟨?_, ?_, ?_⟩
        · rw [← h]; exact Nat.succ_lt_succ hjl
        · rw [← h]; exact hjf
        · intro k hk
          cases k with
          | zero => rfl
          | succ k =>
            exact hjm k (by omega)

/-- A clear bit in range guarantees firstClear finds some index. -/
theorem firstClear_isSome_of_clear :
    ∀ (l : List Bool) (i : Nat), i < l.length → l.getD i false = false →
      ∃ j, firstClear l = some j := by
  intro l
  induction l with
  | nil => intro i hi _; exact absurd hi (Nat.not_lt_zero i)
  | cons a rest ih =>
    intro i hi hfalse
    cases a with
    | false => exact ⟨0, rfl⟩
    | true =>
      cases i with
      | zero => exact absurd hfalse (by simp)
      | succ i =>
        obtain ⟨j, hj⟩ := ih i (Nat.lt_of_succ_lt_succ hi) hfalse
        exact ⟨j + 1, by rw [firstClear, hj]; rfl⟩

/-- two64 as a numeral, for omega. -/
theorem two64_eq : two64 = 18446744073709551616 := by norm_num [two64]

/-- SIZE_MAX as a numeral, for omega. -/
theorem SIZE_MAX_eq : SIZE_MAX = 18446744073709551615 := by norm_num [SIZE_MAX]

/-- BLOCK_COUNT as a numeral, for omega. -/
theorem BLOCK_COUNT_eq : BLOCK_COUNT = 256 := rfl

/-! ## Concrete stores used by witnesses and counterexamples -/

/-- An init function for concrete stores: every user block starts empty. -/
def zeroInit : Nat → Buffer := fun _ => []

/-- A freshly created store. -/
def sFresh : block_store := block_store_create zeroInit

/-- The store obtained from a fresh store by block_store_release at the
reserved index BLOCK_COUNT - 1 (reachable by public operations; see
release_on_reserved_clears_bit). -/
def sCleared : block_store :=
  { sFresh with bm := bitmap_reset sFresh.bm (BLOCK_COUNT - 1) }

/-- A concrete BLOCK_SIZE-byte payload. -/
def payloadOnes : Buffer := List.replicate BLOCK_SIZE 1

/-! ## Claim theorems -/

/-- C10: block_store_read never changes the store: for every store, block id
and buffer, the store component of the result equals the input store,
whether the call succeeds or fails. -/
theorem block_store_read_preserves_store (os : Option block_store)
    (block_id : Nat) (buffer : Option Buffer) :
    (block_store_read os block_id buffer).1 = os := by
  match os, buffer with
  | none, _ => rfl
  | some bs, none => rfl
  | some bs, some b =>
    simp only [block_store_read]
    split
    · rfl
    · split
      · rfl
      · rfl

/-- C4: for every non-null store, get_used_blocks + get_free_blocks computed
in size_t arithmetic equals get_total_blocks = BLOCK_COUNT - 1 = 255.  This
holds for every store state, reachable or not: the two size_t subtractions
cancel modulo 2^64. -/
theorem used_plus_free_eq_total (s : block_store) :
    (block_store_get_used_blocks (some s) +
      block_store_get_free_blocks (some s)) % two64 =
      block_store_get_total_blocks := by
  show (sizeSub (bitmap_total_set s.bm) 1 +
      sizeSub BLOCK_COUNT (bitmap_total_set s.bm)) % two64 = BLOCK_COUNT - 1
  simp only [sizeSub, BLOCK_COUNT, two64_eq]
  omega

/-- C1: the claim fails on the code: block_store_release performs no bounds
check, so releasing the reserved index BLOCK_COUNT - 1 = 255 on a fresh
store clears bitmap bit 255, which the claim says must remain set. -/
theorem release_on_reserved_clears_bit :
    block_store_release (some sFresh) (BLOCK_COUNT - 1) = some sCleared ∧
      bitmap_test sFresh.bm (BLOCK_COUNT - 1) = true ∧
      bitmap_test sCleared.bm (BLOCK_COUNT - 1) = false := by
  refine ⟨rfl, ?_, ?_⟩ <;> decide

/-- C2: the claim fails on the code: the bounds check in block_store_read and
block_store_write is block_id > BLOCK_COUNT - 1, so the reserved index 255
passes it and both calls return BLOCK_SIZE = 256 instead of the 0 the claim
requires (the memcpy then targets the bitmap allocation). -/
theorem read_write_reserved_return_nonzero :
    (block_store_read (some sFresh) (BLOCK_COUNT - 1) (some payloadOnes)).2.2
        = BLOCK_SIZE ∧
      (block_store_write (some sFresh) (BLOCK_COUNT - 1) (some payloadOnes)).2
        = BLOCK_SIZE ∧
      BLOCK_SIZE ≠ 0 := by
  refine ⟨?_, ?_, ?_⟩ <;> decide

/-- C9: immediately after block_store_create, every user block id below
BLOCK_COUNT - 1 is free: get_used_blocks is 0, get_free_blocks is
BLOCK_COUNT - 1 = 255, the id's bit is clear, and block_store_request on
that id succeeds. -/
theorem create_initial_state (init : Nat → Buffer) (block_id : Nat)
    (h : block_id < BLOCK_COUNT - 1) :
    block_store_get_used_blocks (some (block_store_create init)) = 0 ∧
      block_store_get_free_blocks (some (block_store_create init)) =
        BLOCK_COUNT - 1 ∧
      bitmap_test (block_store_create init).bm block_id = false ∧
      (block_store_request (some (block_store_create init)) block_id).2
        = true := by
  have htest : bitmap_test (block_store_create init).bm block_id = false := by
    show ((List.replicate BLOCK_COUNT false).set (BLOCK_COUNT - 1)
      true).getD block_id false = false
    rw [getD_set_ne false true _ _ _ (by omega : BLOCK_COUNT - 1 ≠ block_id)]
    exact (getD_replicate false false BLOCK_COUNT block_id (by omega)).trans rfl
  have hused : block_store_get_used_blocks (some (block_store_create init)) = 0 := by
    show sizeSub (bitmap_total_set (bitmap_set (bitmap_create BLOCK_COUNT)
      (BLOCK_COUNT - 1))) 1 = 0
    decide
  have hfree : block_store_get_free_blocks (some (block_store_create init)) =
      BLOCK_COUNT - 1 := by
    show sizeSub BLOCK_COUNT (bitmap_total_set (bitmap_set
      (bitmap_create BLOCK_COUNT) (BLOCK_COUNT - 1))) = BLOCK_COUNT - 1
    decide
  refine ⟨hused, hfree, htest, ?_⟩
  simp only [block_store_request]
  rw [if_neg (by omega : ¬ block_id > BLOCK_COUNT - 1), if_pos htest]

/-- Witness for C9 at init = zeroInit and block id 0. -/
theorem create_initial_state_witness :
    block_store_get_used_blocks (some (block_store_create zeroInit)) = 0 ∧
      block_store_get_free_blocks (some (block_store_create zeroInit)) =
        BLOCK_COUNT - 1 ∧
      bitmap_test (block_store_create zeroInit).bm 0 = false ∧
      (block_store_request (some (block_store_create zeroInit)) 0).2
        = true :=
  create_initial_state zeroInit 0 (by decide)

/-- C8: for every non-null store and valid user block id, block_store_release
leaves the block's bit clear, releasing twice gives the same state as
releasing once, and release on a null store is a no-op. -/
theorem release_idempotent (s : block_store) (block_id : Nat)
    (h : block_id < BLOCK_COUNT - 1) :
    (∃ s₁, block_store_release (some s) block_id = some s₁ ∧
      bitmap_test s₁.bm block_id = false ∧
      block_store_release (some s₁) block_id = some s₁) ∧
    block_store_release none block_id = none := by
  refine ⟨⟨{ s with bm := bitmap_reset s.bm block_id }, rfl, ?_, ?_⟩, rfl⟩
  · exact getD_set_false s.bm.bits block_id
  · exact congrArg
      (fun l => some (block_store.mk s.blocks (bitmap.mk l)))
      (set_set_same false false s.bm.bits block_id)

/-- Witness for C8 on a fresh store at block id 0. -/
theorem release_idempotent_witness :
    (∃ s₁, block_store_release (some sFresh) 0 = some s₁ ∧
      bitmap_test s₁.bm 0 = false ∧
      block_store_release (some s₁) 0 = some s₁) ∧
    block_store_release none 0 = none :=
  release_idempotent sFresh 0 (by decide)

/-- C5: for every non-null store with the full complement of user blocks,
every valid user block id and every BLOCK_SIZE-byte payload B, writing B and
then reading back into any buffer yields exactly B, both calls returning
BLOCK_SIZE bytes copied — independent of the bitmap's occupancy state. -/
theorem write_then_read_roundtrip (s : block_store) (block_id : Nat)
    (B B2 : Buffer) (hlen : s.blocks.length = BLOCK_COUNT - 1)
    (hid : block_id < BLOCK_COUNT - 1) (hB : B.length = BLOCK_SIZE) :
    ∃ s', block_store_write (some s) block_id (some B) = (some s', BLOCK_SIZE) ∧
      block_store_read (some s') block_id (some B2) =
        (some s', some B, BLOCK_SIZE) := by
  have htake : B.take BLOCK_SIZE = B := by
    rw [← hB]
    exact List.take_length B
  refine ⟨{ s with blocks := s.blocks.set block_id (B.take BLOCK_SIZE) }, ?_, ?_⟩
  · simp only [block_store_write]
    rw [if_neg (by omega : ¬ block_id > BLOCK_COUNT - 1),
      if_pos hid]
  · simp only [block_store_read]
    rw [if_neg (by omega : ¬ block_id > BLOCK_COUNT - 1), if_pos hid]
    have hgetD : (s.blocks.set block_id (B.take BLOCK_SIZE)).getD block_id []
        = B := by
      rw [getD_set_self [] (B.take BLOCK_SIZE) s.blocks block_id
        (by rw [hlen]; exact hid)]
      exact htake
    rw [hgetD]

/-- Witness for C5 on a fresh store at block id 0 with an all-ones payload. -/
theorem write_then_read_roundtrip_witness :
    ∃ s', block_store_write (some sFresh) 0 (some payloadOnes)
        = (some s', BLOCK_SIZE) ∧
      block_store_read (some s') 0 (some []) =
        (some s', some payloadOnes, BLOCK_SIZE) :=
  write_then_read_roundtrip sFresh 0 payloadOnes []
    (by decide) (by decide) (by decide)

/-- C3: block_store_allocate on a non-null store with a well-formed bitmap:
if some user block is free it returns the smallest index whose bit is clear
(necessarily a user index) and sets that bit; if every bit is set it returns
SIZE_MAX and leaves the store unchanged; on a null store it returns
SIZE_MAX. -/
theorem allocate_first_fit (s : block_store)
    (hwf : s.bm.bits.length = BLOCK_COUNT) :
    ((∃ i, i < BLOCK_COUNT - 1 ∧ bitmap_test s.bm i = false) →
      ∃ j, j < BLOCK_COUNT - 1 ∧ bitmap_test s.bm j = false ∧
        (∀ k, k < j → bitmap_test s.bm k = true) ∧
        block_store_allocate (some s) =
          (some { s with bm := bitmap_set s.bm j }, j)) ∧
    ((∀ i, i < BLOCK_COUNT → bitmap_test s.bm i = true) →
      block_store_allocate (some s) = (some s, SIZE_MAX)) ∧
    block_store_allocate none = (none, SIZE_MAX) := by
  refine ⟨?_, ?_, rfl⟩
  · rintro ⟨i, hi, hfree⟩
    obtain ⟨j, hj⟩ := firstClear_isSome_of_clear s.bm.bits i
      (by rw [hwf]; omega) hfree
    obtain ⟨hjl, hjf, hjm⟩ := firstClear_some_spec s.bm.bits j hj
    have hfree' : s.bm.bits.getD i false = false := hfree
    have hji : j ≤ i := by
      by_contra hgt
      rw [hjm i (by omega)] at hfree'
      exact Bool.noConfusion hfree'
    have hffz : bitmap_ffz s.bm = j := by
      unfold bitmap_ffz
      rw [hj]
    have hjne : ¬ j = SIZE_MAX := by
      rw [hwf, BLOCK_COUNT_eq] at hjl
      rw [SIZE_MAX_eq]
      omega
    refine ⟨j, by rw [BLOCK_COUNT_eq] at hi ⊢; omega, hjf, hjm, ?_⟩
    simp only [block_store_allocate, hffz]
    rw [if_neg hjne]
  · intro hall
    have hnone : firstClear s.bm.bits = none :=
      firstClear_eq_none_of_all_true s.bm.bits
        (fun i hi => hall i (by rw [hwf] at hi; exact hi))
    have hffz : bitmap_ffz s.bm = SIZE_MAX := by
      unfold bitmap_ffz
      rw [hnone]
    simp only [block_store_allocate, hffz]
    exact if_pos trivial

/-- Witness for C3 on a fresh store, whose bitmap has length BLOCK_COUNT. -/
theorem allocate_first_fit_witness :
    ((∃ i, i < BLOCK_COUNT - 1 ∧ bitmap_test sFresh.bm i = false) →
      ∃ j, j < BLOCK_COUNT - 1 ∧ bitmap_test sFresh.bm j = false ∧
        (∀ k, k < j → bitmap_test sFresh.bm k = true) ∧
        block_store_allocate (some sFresh) =
          (some { sFresh with bm := bitmap_set sFresh.bm j }, j)) ∧
    ((∀ i, i < BLOCK_COUNT → bitmap_test sFresh.bm i = true) →
      block_store_allocate (some sFresh) = (some sFresh, SIZE_MAX)) ∧
    block_store_allocate none = (none, SIZE_MAX) :=
  allocate_first_fit sFresh (by decide)

/-- C6 counterexample: on the store reached from a fresh store by releasing
the reserved index 255 (which clears bit 255), block_store_request at 255
returns true and mutates the store, although 255 is not a valid user id
(255 < BLOCK_COUNT - 1 fails) — so success is not equivalent to "non-null,
id in the user range, block free" as the claim states it. -/
theorem request_reserved_succeeds_after_clear :
    block_store_release (some sFresh) (BLOCK_COUNT - 1) = some sCleared ∧
      (block_store_request (some sCleared) (BLOCK_COUNT - 1)).2 = true ∧
      ¬ (BLOCK_COUNT - 1 < BLOCK_COUNT - 1) := by
  refine ⟨rfl, ?_, by decide⟩
  decide

/-- C6 amended: block_store_request returns true and sets the block's bit
iff the store is non-null, the id passes the code's bounds check
(id ≤ BLOCK_COUNT - 1, which admits the reserved index), and the bit was
clear; in every other case it returns false and leaves the store completely
unchanged. -/
theorem request_succeeds_iff (os : Option block_store) (block_id : Nat) :
    ((block_store_request os block_id).2 = true ↔
      ∃ s, os = some s ∧ block_id ≤ BLOCK_COUNT - 1 ∧
        bitmap_test s.bm block_id = false) ∧
    (∀ s, os = some s → block_id ≤ BLOCK_COUNT - 1 →
      bitmap_test s.bm block_id = false →
      (block_store_request os block_id).1 =
        some { s with bm := bitmap_set s.bm block_id }) ∧
    ((block_store_request os block_id).2 = false →
      (block_store_request os block_id).1 = os) := by
  match os with
  | none => exact ⟨⟨fun h => Bool.noConfusion h,
      fun ⟨s, hs, _⟩ => Option.noConfusion hs⟩,
      fun s hs => Option.noConfusion hs, fun _ => rfl⟩
  | some s =>
    by_cases hrange : block_id > BLOCK_COUNT - 1
    · refine ⟨⟨?_, ?_⟩, ?_, ?_⟩
      · intro habs
        simp only [block_store_request, if_pos hrange] at habs
        exact Bool.noConfusion habs
      · rintro ⟨s', hs', hle, _⟩
        omega
      · intro s' _ hle _
        omega
      · intro _
        simp only [block_store_request, if_pos hrange]
    · by_cases hfree : bitmap_test s.bm block_id = false
      · refine ⟨⟨?_, ?_⟩, ?_, ?_⟩
        · intro _
          exact ⟨s, rfl, by omega, hfree⟩
        · intro _
          simp only [block_store_request, if_neg hrange, if_pos hfree]
        · intro s' hs' _ _
          have hss : s' = s := by
            injection hs' with he
            exact he.symm
          subst hss
          simp only [block_store_request, if_neg hrange, if_pos hfree]
        · intro hfalse
          simp only [block_store_request, if_neg hrange, if_pos hfree] at hfalse
          exact Bool.noConfusion hfalse
      · refine ⟨⟨?_, ?_⟩, ?_, ?_⟩
        · intro habs
          simp only [block_store_request, if_neg hrange, if_neg hfree] at habs
          exact Bool.noConfusion habs
        · rintro ⟨s', hs', _, hfree'⟩
          have hss : s' = s := by
            injection hs' with he
            exact he.symm
          subst hss
          exact absurd hfree' hfree
        · intro s' hs' _ hfree'
          have hss : s' = s := by
            injection hs' with he
            exact he.symm
          subst hss
          exact absurd hfree' hfree
        · intro _
          simp only [block_store_request, if_neg hrange, if_neg hfree]

/-- Witness for C6's amended theorem: on a fresh store, requesting block 0
succeeds. -/
theorem request_succeeds_iff_witness :
    (block_store_request (some sFresh) 0).2 = true :=
  (request_succeeds_iff (some sFresh) 0).1.mpr ⟨sFresh, rfl, by decide, by decide⟩

/-! ## Operation sequences over the allocation state (for C7) -/

/-- One public allocation-affecting operation of the block store. -/
inductive bsOp where
  | alloc : bsOp
  | req : Nat → bsOp
  | rel : Nat → bsOp
deriving DecidableEq

/-- The store resulting from one operation (the store component of the
corresponding block_store function's result). -/
def applyOp (os : Option block_store) : bsOp → Option block_store
  | .alloc => (block_store_allocate os).1
  | .req block_id => (block_store_request os block_id).1
  | .rel block_id => block_store_release os block_id

/-- The store resulting from a sequence of operations, applied in order. -/
def applyOps (os : Option block_store) (ops : List bsOp) : Option block_store :=
  ops.foldl applyOp os

/-- Setting any bit preserves a bit that reads true. -/
theorem test_true_after_set (bm : bitmap) (i x : Nat)
    (h : bitmap_test bm x = true) : bitmap_test (bitmap_set bm i) x = true := by
  by_cases hix : i = x
  · subst hix
    exact getD_set_self false true bm.bits i (lt_length_of_getD_true bm.bits i h)
  · show (bm.bits.set i true).getD x false = true
    rw [getD_set_ne false true bm.bits i x hix]
    exact h

/-- Resetting a different bit preserves a bit that reads true. -/
theorem test_true_after_reset_ne (bm : bitmap) (i x : Nat) (hne : i ≠ x)
    (h : bitmap_test bm x = true) :
    bitmap_test (bitmap_reset bm i) x = true := by
  show (bm.bits.set i false).getD x false = true
  rw [getD_set_ne false false bm.bits i x hne]
  exact h

/-- Any single operation other than releasing x keeps the store non-null and
keeps bit x set. -/
theorem applyOp_keeps_bit (s : block_store) (x : Nat) (op : bsOp)
    (hop : op ≠ bsOp.rel x) (h : bitmap_test s.bm x = true) :
    ∃ s', applyOp (some s) op = some s' ∧ bitmap_test s'.bm x = true := by
  cases op with
  | alloc =>
    show ∃ s', (block_store_allocate (some s)).1 = some s' ∧ _
    simp only [block_store_allocate]
    by_cases hffz : bitmap_ffz s.bm = SIZE_MAX
    · rw [if_pos hffz]
      exact ⟨s, rfl, h⟩
    · rw [if_neg hffz]
      exact ⟨{ s with bm := bitmap_set s.bm (bitmap_ffz s.bm) }, rfl,
        test_true_after_set s.bm _ x h⟩
  | req block_id =>
    show ∃ s', (block_store_request (some s) block_id).1 = some s' ∧ _
    simp only [block_store_request]
    by_cases hrange : block_id > BLOCK_COUNT - 1
    · rw [if_pos hrange]
      exact ⟨s, rfl, h⟩
    · rw [if_neg hrange]
      by_cases hfree : bitmap_test s.bm block_id = false
      · rw [if_pos hfree]
        exact ⟨{ s with bm := bitmap_set s.bm block_id }, rfl,
          test_true_after_set s.bm block_id x h⟩
      · rw [if_neg hfree]
        exact ⟨s, rfl, h⟩
  | rel block_id =>
    have hne : block_id ≠ x := fun he =>
      hop (congrArg bsOp.rel he)
    exact ⟨{ s with bm := bitmap_reset s.bm block_id }, rfl,
      test_true_after_reset_ne s.bm block_id x hne h⟩

/-- A sequence of operations that never releases x keeps the store non-null
and keeps bit x set. -/
theorem applyOps_keeps_bit (x : Nat) (ops : List bsOp)
    (hops : bsOp.rel x ∉ ops) :
    ∀ s : block_store, bitmap_test s.bm x = true →
      ∃ s', applyOps (some s) ops = some s' ∧ bitmap_test s'.bm x = true := by
  induction ops with
  | nil => exact fun s h => ⟨s, rfl, h⟩
  | cons op rest ih =>
    intro s h
    have hop : op ≠ bsOp.rel x := fun he =>
      hops (he ▸ List.mem_cons_self op rest)
    have hrest : bsOp.rel x ∉ rest := fun hmem =>
      hops (List.mem_cons_of_mem op hmem)
    obtain ⟨s₁, hs₁, hb₁⟩ := applyOp_keeps_bit s x op hop h
    obtain ⟨s₂, hs₂, hb₂⟩ := ih hrest s₁ hb₁
    refine ⟨s₂, ?_, hb₂⟩
    show (op :: rest).foldl applyOp (some s) = some s₂
    rw [List.foldl_cons, hs₁]
    exact hs₂

/-- C7: when block_store_allocate returns a valid user block id x, every
subsequent sequence of allocate/request/release operations that never
releases x leaves block_store_request at x failing; releasing x then makes
block_store_request at x succeed. -/
theorem allocated_block_request_fails_until_release (s : block_store)
    (x : Nat) (ops : List bsOp)
    (hx : (block_store_allocate (some s)).2 = x) (hxv : x < BLOCK_COUNT - 1)
    (hops : bsOp.rel x ∉ ops) :
    ∃ s₁ s₂, block_store_allocate (some s) =
        (some { s with bm := bitmap_set s.bm x }, x) ∧
      s₁ = { s with bm := bitmap_set s.bm x } ∧
      applyOps (some s₁) ops = some s₂ ∧
      (block_store_request (some s₂) x).2 = false ∧
      (block_store_request (block_store_release (some s₂) x) x).2 = true := by
  have hxne : x ≠ SIZE_MAX := by
    rw [SIZE_MAX_eq]
    rw [BLOCK_COUNT_eq] at hxv
    omega
  have hffz : bitmap_ffz s.bm = x := by
    by_cases hc : bitmap_ffz s.bm = SIZE_MAX
    · exfalso
      apply hxne
      rw [← hx]
      simp only [block_store_allocate, if_pos hc]
    · rw [← hx]
      simp only [block_store_allocate, if_neg hc]
  have halloc : block_store_allocate (some s) =
      (some { s with bm := bitmap_set s.bm x }, x) := by
    have hc : ¬ bitmap_ffz s.bm = SIZE_MAX := by
      rw [hffz]
      exact hxne
    simp only [block_store_allocate, if_neg hc, hffz]
    rw [if_neg hxne]
  have hxlen : x < s.bm.bits.length := by
    cases hfc : firstClear s.bm.bits with
    | none =>
      exfalso
      apply hxne
      rw [← hffz]
      unfold bitmap_ffz
      rw [hfc]
    | some j =>
      have hjx : j = x := by
        rw [← hffz]
        unfold bitmap_ffz
        rw [hfc]
      exact hjx ▸ (firstClear_some_spec s.bm.bits j hfc).1
  have hbit : bitmap_test { s with bm := bitmap_set s.bm x }.bm x = true :=
    getD_set_self false true s.bm.bits x hxlen
  obtain ⟨s₂, hs₂, hb₂⟩ :=
    applyOps_keeps_bit x ops hops { s with bm := bitmap_set s.bm x } hbit
  refine ⟨{ s with bm := bitmap_set s.bm x }, s₂, halloc, rfl, hs₂, ?_, ?_⟩
  · simp only [block_store_request,
      if_neg (by rw [BLOCK_COUNT_eq] at hxv ⊢; omega : ¬ x > BLOCK_COUNT - 1)]
    rw [hb₂]
    simp
  · show (block_store_request
      (some { s₂ with bm := bitmap_reset s₂.bm x }) x).2 = true
    have hclear : bitmap_test { s₂ with bm := bitmap_reset s₂.bm x }.bm x
        = false := getD_set_false s₂.bm.bits x
    simp only [block_store_request,
      if_neg (by rw [BLOCK_COUNT_eq] at hxv ⊢; omega : ¬ x > BLOCK_COUNT - 1),
      if_pos hclear]

/-- Witness for C7: on a fresh store allocate returns 0; after one further
allocate (which returns 1), request 0 still fails, and after releasing 0 it
succeeds. -/
theorem allocated_block_request_fails_until_release_witness :
    ∃ s₁ s₂, block_store_allocate (some sFresh) =
        (some { sFresh with bm := bitmap_set sFresh.bm 0 }, 0) ∧
      s₁ = { sFresh with bm := bitmap_set sFresh.bm 0 } ∧
      applyOps (some s₁) [bsOp.alloc] = some s₂ ∧
      (block_store_request (some s₂) 0).2 = false ∧
      (block_store_request (block_store_release (some s₂) 0) 0).2 = true :=
  allocated_block_request_fails_until_release sFresh 0 [bsOp.alloc]
    (by decide) (by decide) (by decide)
